import Mathlib

/-!
Verification of the opm-core PVT property layer against its
natural-language specification.

The development shallowly embeds:

* `opm_memcmp_double` from src/opm/core/utility/opm_memcmp_double.c,
  over a value model `FP` of IEEE doubles that carries finite values
  exactly (as rationals) together with NaN; comparisons involving NaN
  are false, as in IEEE arithmetic.

* the live-oil PVT evaluator of src/opm/core/props/pvt/PvtLiveOil.hpp.
  The header only declares the evaluation routines (the .cpp holding
  their bodies is not among the shown sources), so the table
  interpolation engine, the saturated/undersaturated branch logic and
  the vectorized API are modelled from the specification text (spec.md
  sections 3, 4.2, 4.3 and 4.4); the inline members `getTableIndex_`
  and `setOilvisctTables` are translated from the header directly.

Machine arithmetic on `double` is modelled by exact rational
arithmetic; the spec describes the numerical algorithms, not rounding,
so this is the intended reading for every property checked here.
-/

namespace Opm

/-- Value model for a C `double`: a finite value carried exactly as a
rational, or NaN.  Infinities do not occur in any checked property and
signed zero collapses to `0`; NaN bit patterns are collapsed to one
class (two same-pattern NaNs are byte-identical, modelled by `nan = nan`). -/
inductive FP where
  | val (q : ℚ)
  | nan
deriving DecidableEq

namespace FP

/-- Subtraction of doubles; any NaN operand propagates NaN. -/
def sub : FP → FP → FP
  | val a, val b => val (a - b)
  | _, _ => nan

/-- Addition of doubles; any NaN operand propagates NaN. -/
def add : FP → FP → FP
  | val a, val b => val (a + b)
  | _, _ => nan

/-- Multiplication of doubles; any NaN operand propagates NaN. -/
def mul : FP → FP → FP
  | val a, val b => val (a * b)
  | _, _ => nan

/-- `fabs`; NaN stays NaN. -/
def fabs : FP → FP
  | val a => val |a|
  | nan => nan

/-- The C comparison `a > b`: false whenever either operand is NaN. -/
def gt : FP → FP → Bool
  | val a, val b => decide (b < a)
  | _, _ => false

/-- NaN test. -/
def isNan : FP → Bool
  | val _ => false
  | nan => true

end FP

/-- The constant `abs_epsilon = 1e-8` of `opm_memcmp_double`. -/
def abs_epsilon : ℚ := 1e-8

/-- The constant `rel_epsilon = 1e-5` of `opm_memcmp_double`. -/
def rel_epsilon : ℚ := 1e-5

/-- Body of the per-element loop of `opm_memcmp_double`: the pair
`(a, b)` does NOT make the function return 1 exactly when this is
`true`.  Mirrors the C code
`diff = fabs(p1[i] - p2[i]);
 if (diff > abs_epsilon) {
   sum = fabs(p1[i]) + fabs(p2[i]);
   if (diff > sum * rel_epsilon) return 1; }`. -/
def pairOk (a b : FP) : Bool :=
  let diff := (a.sub b).fabs
  if diff.gt (FP.val abs_epsilon) then
    let sum := (a.fabs).add (b.fabs)
    !(diff.gt (sum.mul (FP.val rel_epsilon)))
  else
    true

/-- Shallow embedding of `opm_memcmp_double(p1, p2, num_elements)`.
The `memcmp` fast path compares the first `num_elements` doubles for
byte identity, modelled as equality of the truncated lists; otherwise
the loop returns 1 at the first pair failing `pairOk`, i.e. the result
is 0 iff every pair passes. -/
def opm_memcmp_double (p1 p2 : List FP) (num_elements : Nat) : Int :=
  if p1.take num_elements = p2.take num_elements then 0
  else if ((p1.take num_elements).zip (p2.take num_elements)).all
            (fun ab => pairOk ab.1 ab.2) then 0
  else 1

/-- The specification's per-pair tolerance condition, read as a
mathematical statement about (finite) values: both elements are finite
and `|a - b| <= 1e-8` or `|a - b| <= 1e-5 * (|a| + |b|)`.  This is the
spec-side predicate the comparator is checked against; a NaN element
satisfies neither inequality as a mathematical statement. -/
def pairWithinTol (a b : FP) : Prop :=
  ∃ qa qb : ℚ, a = FP.val qa ∧ b = FP.val qb ∧
    (|qa - qb| ≤ abs_epsilon ∨ |qa - qb| ≤ rel_epsilon * (|qa| + |qb|))

/-- Modelled from the spec: the bracket search of the table
interpolation engine (spec 4.2/4.3), whose implementation lives in the
missing PvtLiveOil.cpp / linearInterpolation.hpp.  Given the sorted
breakpoint column `xs`, it returns the index of the interval used for
interpolation at `x`: the search "must pick the lower-adjacent interval"
at exact breakpoints, and queries outside the tabulated range are
clamped to the first/last interval (linear extrapolation). -/
def segIdx : List ℚ → ℚ → Nat
  | _ :: x1 :: x2 :: rest, x => if x ≤ x1 then 0 else segIdx (x1 :: x2 :: rest) x + 1
  | _, _ => 0

/-- Modelled from the spec: piecewise-linear interpolation of the
column `ys` tabulated against the sorted column `xs`, evaluated at `x`
on the bracket chosen by `segIdx`; outside the tabulated range this is
the clamped-linear extrapolation by the boundary segment. -/
def interp (xs ys : List ℚ) (x : ℚ) : ℚ :=
  ys.getD (segIdx xs x) 0 +
    (ys.getD (segIdx xs x + 1) 0 - ys.getD (segIdx xs x) 0) /
      (xs.getD (segIdx xs x + 1) 0 - xs.getD (segIdx xs x) 0) * (x - xs.getD (segIdx xs x) 0)

/-- Modelled from the spec: the reported derivative of `interp` with
respect to `x`, the constant slope of the bracketing segment. -/
def interpDeriv (xs ys : List ℚ) (x : ℚ) : ℚ :=
  (ys.getD (segIdx xs x + 1) 0 - ys.getD (segIdx xs x) 0) /
    (xs.getD (segIdx xs x + 1) 0 - xs.getD (segIdx xs x) 0)

/-- Modelled from the spec: one row of a region's saturated table
(spec section 3): pressure, ratio at saturation (the Rs column),
inverse formation-volume factor `1/B`, and viscosity.  In the C++ these
are the four inner vectors of one entry of `saturated_oil_table_`. -/
structure SatRow where
  press : ℚ
  rs : ℚ
  invB : ℚ
  visc : ℚ
deriving DecidableEq

/-- Modelled from the spec: one row of an undersaturated sub-table
(pressure, `1/B`, viscosity), an inner vector of one entry of
`undersat_oil_tables_`. -/
structure USatRow where
  press : ℚ
  invB : ℚ
  visc : ℚ
deriving DecidableEq

/-- Column selector of the saturated table for the `item` argument of
`miscible_oil` (header comment: `item: 1 => 1/B, 2 => mu`). -/
def satCol (item : Nat) (row : SatRow) : ℚ :=
  if item = 1 then row.invB else row.visc

/-- Column selector of an undersaturated sub-table for `item`. -/
def usatCol (item : Nat) (row : USatRow) : ℚ :=
  if item = 1 then row.invB else row.visc

/-- Modelled from the spec: the scalar core of `PvtLiveOil::rsSat`
(section 4.2): interpolate the ratio column of the saturated table in
pressure, extrapolating outside the range by the boundary slope. -/
def rsSat_scalar (tab : List SatRow) (p : ℚ) : ℚ :=
  interp (tab.map SatRow.press) (tab.map SatRow.rs) p

/-- Modelled from the spec: the reported pressure derivative of
`rsSat_scalar` — the slope of the bracketing segment. -/
def drsSatdp_scalar (tab : List SatRow) (p : ℚ) : ℚ :=
  interpDeriv (tab.map SatRow.press) (tab.map SatRow.rs) p

/-- Modelled from the spec: the scalar core of `PvtLiveOil::rvSat`,
specified by section 4.2 with the same algorithm as `rsSat_scalar`,
over its own (pressure, ratio, ...) saturated table. -/
def rvSat_scalar (tab : List SatRow) (p : ℚ) : ℚ :=
  interp (tab.map SatRow.press) (tab.map SatRow.rs) p

/-- Modelled from the spec: the reported pressure derivative of
`rvSat_scalar`. -/
def drvSatdp_scalar (tab : List SatRow) (p : ℚ) : ℚ :=
  interpDeriv (tab.map SatRow.press) (tab.map SatRow.rs) p

/-- Modelled from the spec: saturated-branch evaluation (section 4.3):
interpolate the selected property column of the saturated table
directly at pressure `p`. -/
def evalSat (tab : List SatRow) (p : ℚ) (item : Nat) : ℚ :=
  interp (tab.map SatRow.press) (tab.map (satCol item)) p

/-- Modelled from the spec: undersaturated-branch evaluation
(section 4.3): locate `r` among the saturated table's ratio
breakpoints, interpolate the two bracketing undersaturated sub-tables
by pressure, and blend the two results linearly by the fractional
position `w` of `r` in the bracket. -/
def evalUndersat (tab : List SatRow) (utabs : List (List USatRow))
    (p r : ℚ) (item : Nat) : ℚ :=
  let rcol := tab.map SatRow.rs
  let i := segIdx rcol r
  let w := (r - rcol.getD i 0) / (rcol.getD (i + 1) 0 - rcol.getD i 0)
  let ti := utabs.getD i []
  let tj := utabs.getD (i + 1) []
  interp (ti.map USatRow.press) (ti.map (usatCol item)) p * (1 - w) +
    interp (tj.map USatRow.press) (tj.map (usatCol item)) p * w

/-- Modelled from the spec: the by-ratio overload of
`PvtLiveOil::miscible_oil(press, r, pvtTableIdx, item, deriv)` at
`deriv = 0` (the value path).  Per the header comment on `mu`/`b`
("the fluid is considered saturated if r >= rsSat(p)"), the saturated
branch is taken iff `rsSat(p) <= r`. -/
def miscible_oil_r (tab : List SatRow) (utabs : List (List USatRow))
    (p r : ℚ) (item : Nat) : ℚ :=
  if rsSat_scalar tab p ≤ r then evalSat tab p item
  else evalUndersat tab utabs p r item

/-- Modelled from the spec: the ratio derived from a surface-volume
block, `r = surfvol[gas] / surfvol[oil]`, "guarding oil-volume-near-zero
by returning 0" (spec sections 4.3 and 7); in this exact-arithmetic
model the near-zero guard triggers exactly at zero. -/
def derivedRs (gasVol oilVol : ℚ) : ℚ :=
  if oilVol = 0 then 0 else gasVol / oilVol

/-- Modelled from the spec: the by-surface-volume overload of
`PvtLiveOil::miscible_oil(press, surfvol, pvtTableIdx, item)` — derive
the ratio from the surface-volume block, then evaluate as the by-ratio
form. -/
def miscible_oil_z (tab : List SatRow) (utabs : List (List USatRow))
    (p gasVol oilVol : ℚ) (item : Nat) : ℚ :=
  miscible_oil_r tab utabs p (derivedRs gasVol oilVol) item

/-- Modelled from the spec: a viscosity-temperature correction table
(`Opm::OilvisctTable`, an external parser type): rows of (temperature,
viscosity factor). -/
abbrev OilvisctTable := List (ℚ × ℚ)

/-- Modelled from the spec: the payload of the VISCREF deck keyword
(`DeckKeywordConstPtr`, an external parser type): per-region reference
pressures. -/
abbrev ViscrefRecord := List ℚ

/-- State of a `PvtLiveOil` object, following the private members of
the header: per-region saturated tables, per-region families of
undersaturated sub-tables, and the two members set by
`setOilvisctTables` (both null-able pointers, hence `Option`; they are
null between construction and the first `setOilvisctTables` call). -/
structure PvtLiveOil where
  saturated_oil_table_ : List (List SatRow)
  undersat_oil_tables_ : List (List (List USatRow))
  oilvisctTables_ : Option (List OilvisctTable)
  viscrefKeyword_ : Option ViscrefRecord

/-- Translation of the inline member `PvtLiveOil::getTableIndex_`:
`if (!pvtTableIdx) return 0; return pvtTableIdx[cellIdx];`.  The absent
array is `none`; the in-bounds C array read is `getD` (out-of-bounds
reads are undefined behaviour in C and default to 0 here). -/
def getTableIndex_ (pvtTableIdx : Option (List Int)) (cellIdx : Nat) : Int :=
  match pvtTableIdx with
  | none => 0
  | some a => a.getD cellIdx 0

/-- Translation of the inline member `PvtLiveOil::setOilvisctTables`:
`oilvisctTables_ = &oilvisctTables; viscrefKeyword_ = viscrefKeyword;`.
Taking the address of the reference argument always yields a non-null
pointer, hence `some`. -/
def setOilvisctTables (self : PvtLiveOil) (oilvisctTables : List OilvisctTable)
    (viscrefKeyword : Option ViscrefRecord) : PvtLiveOil :=
  { self with oilvisctTables_ := some oilvisctTables,
              viscrefKeyword_ := viscrefKeyword }

/-- Modelled from the spec: per-cell viscosity with the optional
temperature correction of section 4.4 — with no attached table the
viscosity is the plain by-ratio evaluation; with a table attached, the
viscosity at the region's reference pressure is scaled by a
temperature-dependent factor read from that region's table. -/
def muCell (self : PvtLiveOil) (reg : Nat) (p T r : ℚ) : ℚ :=
  let tab := self.saturated_oil_table_.getD reg []
  let utabs := self.undersat_oil_tables_.getD reg []
  match self.oilvisctTables_ with
  | none => miscible_oil_r tab utabs p r 2
  | some vtabs =>
      let pref := (self.viscrefKeyword_.getD []).getD reg 0
      let muRef := miscible_oil_r tab utabs pref r 2
      let vt := vtabs.getD reg []
      muRef * interp (vt.map Prod.fst) (vt.map Prod.snd) T

/-- Modelled from the spec: the vectorized by-ratio
`PvtLiveOil::mu(n, pvtTableIdx, p, T, r, ...)` value output — element
`i` is computed solely from the inputs at index `i`, on the region
selected by `getTableIndex_`. -/
def muVec_r (self : PvtLiveOil) (n : Nat) (pvtTableIdx : Option (List Int))
    (p T r : List ℚ) : List ℚ :=
  (List.range n).map fun i =>
    muCell self (getTableIndex_ pvtTableIdx i).toNat (p.getD i 0) (T.getD i 0) (r.getD i 0)

/-- Modelled from the spec: the vectorized by-surface-volume
`PvtLiveOil::mu(n, pvtTableIdx, p, T, z, ...)` value output, with the
surface-volume block given as its gas and oil columns. -/
def muVec_z (self : PvtLiveOil) (n : Nat) (pvtTableIdx : Option (List Int))
    (p T gasVol oilVol : List ℚ) : List ℚ :=
  (List.range n).map fun i =>
    muCell self (getTableIndex_ pvtTableIdx i).toNat (p.getD i 0) (T.getD i 0)
      (derivedRs (gasVol.getD i 0) (oilVol.getD i 0))

/-- Concrete saturated table used as a test fixture: the spec's
section 8 scenario rows (p=100, rs=50, 1/B=0.9, mu=1.2) and
(p=200, rs=80, 1/B=0.95, mu=1.0). -/
def satTabEx : List SatRow :=
  [⟨100, 50, 9/10, 6/5⟩, ⟨200, 80, 19/20, 1⟩]

/-- Concrete undersaturated family for `satTabEx`, anchored at the
saturated rows (sub-table i starts at the saturated point of row i) and
satisfying every invariant of spec section 3. -/
def usatTabsEx : List (List USatRow) :=
  [[⟨100, 9/10, 6/5⟩, ⟨300, 11/10, 1⟩], [⟨200, 19/20, 1⟩, ⟨400, 1, 9/10⟩]]

/-- Concrete single-region evaluator state with no attached
viscosity-temperature table. -/
def pvtEx : PvtLiveOil := ⟨[satTabEx], [usatTabsEx], none, none⟩


/-- Helper: a non-NaN double is some finite value. -/
theorem FP.exists_val_of_not_nan {a : FP} (h : a.isNan = false) : ∃ q, a = FP.val q := by
  cases a with
  | val q => exact ⟨q, rfl⟩
  | nan => simp [FP.isNan] at h

/-- Helper: on finite values the loop-body test `pairOk` decides
exactly the specification's tolerance condition. -/
theorem pairOk_iff (qa qb : ℚ) :
    pairOk (FP.val qa) (FP.val qb) = true ↔ pairWithinTol (FP.val qa) (FP.val qb) := by
  simp only [pairOk, FP.sub, FP.fabs, FP.add, FP.mul, FP.gt, pairWithinTol,
    FP.val.injEq]
  by_cases h : abs_epsilon < |qa - qb|
  · simp [h, not_lt, mul_comm]
  · simp [h, not_lt.mp h]

/-- Helper: for NaN-free inputs, `opm_memcmp_double` reports equal iff
the truncated arrays are identical or every corresponding pair is
within tolerance. -/
theorem opm_memcmp_double_eq_zero_of_finite (p1 p2 : List FP) (n : Nat)
    (h1 : ∀ a ∈ p1, a.isNan = false) (h2 : ∀ a ∈ p2, a.isNan = false) :
    (opm_memcmp_double p1 p2 n = 0 ↔
      (p1.take n = p2.take n ∨
       ∀ ab ∈ (p1.take n).zip (p2.take n), pairWithinTol ab.1 ab.2)) := by
  have key : (((p1.take n).zip (p2.take n)).all (fun ab => pairOk ab.1 ab.2) = true) ↔
      (∀ ab ∈ (p1.take n).zip (p2.take n), pairWithinTol ab.1 ab.2) := by
    rw [List.all_eq_true]
    constructor
    · intro h ab hab
      obtain ⟨a, b⟩ := ab
      obtain ⟨ha, hb⟩ := List.of_mem_zip hab
      obtain ⟨qa, rfl⟩ := FP.exists_val_of_not_nan (h1 _ (List.take_subset n p1 ha))
      obtain ⟨qb, rfl⟩ := FP.exists_val_of_not_nan (h2 _ (List.take_subset n p2 hb))
      exact (pairOk_iff qa qb).mp (h _ hab)
    · intro h ab hab
      obtain ⟨a, b⟩ := ab
      obtain ⟨ha, hb⟩ := List.of_mem_zip hab
      obtain ⟨qa, rfl⟩ := FP.exists_val_of_not_nan (h1 _ (List.take_subset n p1 ha))
      obtain ⟨qb, rfl⟩ := FP.exists_val_of_not_nan (h2 _ (List.take_subset n p2 hb))
      exact (pairOk_iff qa qb).mpr (h _ hab)
  unfold opm_memcmp_double
  by_cases heq : p1.take n = p2.take n
  · simp [heq]
  · rw [if_neg heq]
    constructor
    · intro h0
      right
      by_cases hall : ((p1.take n).zip (p2.take n)).all (fun ab => pairOk ab.1 ab.2) = true
      · exact key.mp hall
      · rw [if_neg hall] at h0
        exact absurd h0 (by norm_num)
    · rintro (h | h)
      · exact absurd h heq
      · rw [if_pos (key.mpr h)]

set_option maxHeartbeats 1600000 in
/-- C1 (amended): for arrays of non-NaN doubles, `opm_memcmp_double`
reports equal iff the compared prefixes are byte-identical or every
corresponding pair (a, b) satisfies `|a-b| <= 1e-8` or
`|a-b| <= 1e-5 * (|a|+|b|)`; moreover the four example comparisons of
the claim hold: ([1,2],[1,2]) equal, ([1],[1.00000002]) equal,
([1000],[1000.02]) equal, ([1],[1.1]) different.  (The NaN-free
restriction is forced by `opm_memcmp_double_nan_not_within_tol_yet_equal`.) -/
theorem opm_memcmp_double_tolerant_iff :
    (∀ (p1 p2 : List FP) (n : Nat),
        (∀ a ∈ p1, a.isNan = false) → (∀ a ∈ p2, a.isNan = false) →
        (opm_memcmp_double p1 p2 n = 0 ↔
          (p1.take n = p2.take n ∨
           ∀ ab ∈ (p1.take n).zip (p2.take n), pairWithinTol ab.1 ab.2))) ∧
    opm_memcmp_double [FP.val 1, FP.val 2] [FP.val 1, FP.val 2] 2 = 0 ∧
    opm_memcmp_double [FP.val 1] [FP.val (100000002/100000000)] 1 = 0 ∧
    opm_memcmp_double [FP.val 1000] [FP.val (100002/100)] 1 = 0 ∧
    opm_memcmp_double [FP.val 1] [FP.val (11/10)] 1 = 1 := by
  refine ⟨opm_memcmp_double_eq_zero_of_finite, ?_, ?_, ?_, ?_⟩
  · norm_num [opm_memcmp_double]
  · norm_num [opm_memcmp_double, pairOk, FP.sub, FP.fabs, FP.add, FP.mul, FP.gt,
      abs_epsilon, rel_epsilon, abs_eq_max_neg, max_def]
  · norm_num [opm_memcmp_double, pairOk, FP.sub, FP.fabs, FP.add, FP.mul, FP.gt,
      abs_epsilon, rel_epsilon, abs_eq_max_neg, max_def]
  · norm_num [opm_memcmp_double, pairOk, FP.sub, FP.fabs, FP.add, FP.mul, FP.gt,
      abs_epsilon, rel_epsilon, abs_eq_max_neg, max_def]

/-- C1 witness: the amended equivalence applied at a concrete NaN-free
input. -/
theorem opm_memcmp_double_tolerant_iff_witness :
    opm_memcmp_double [FP.val 1] [FP.val 1] 1 = 0 ↔
      ([FP.val 1].take 1 = [FP.val 1].take 1 ∨
       ∀ ab ∈ ([FP.val 1].take 1).zip ([FP.val 1].take 1), pairWithinTol ab.1 ab.2) :=
  opm_memcmp_double_tolerant_iff.1 [FP.val 1] [FP.val 1] 1
    (by simp [FP.isNan]) (by simp [FP.isNan])

/-- C1 counterexample: at `p1 = [NaN]`, `p2 = [1.0]`, `n = 1` the claim's
equivalence fails — the comparator reports equal although the arrays
are not byte-identical and the pair satisfies neither tolerance
inequality as a mathematical statement. -/
theorem opm_memcmp_double_nan_not_within_tol_yet_equal :
    opm_memcmp_double [FP.nan] [FP.val 1] 1 = 0 ∧
    [FP.nan].take 1 ≠ [FP.val 1].take 1 ∧
    ¬ pairWithinTol FP.nan (FP.val 1) := by
  refine ⟨by norm_num [opm_memcmp_double, pairOk, FP.sub, FP.fabs, FP.gt], by simp, ?_⟩
  rintro ⟨qa, qb, h, -, -⟩
  exact FP.noConfusion h

/-- C10: a pair whose difference is NaN can never cause the result
"different", because both `>` threshold comparisons are false on NaN;
hence `compare([NaN],[x],1)` reports equal for every double `x`, and in
particular `([NaN],[1.0])` is reported equal although the arrays are
not byte-identical and the pair violates both tolerance inequalities as
mathematical statements. -/
theorem nan_pair_reports_equal :
    (∀ a b : FP, ((a.sub b).fabs).isNan = true → pairOk a b = true) ∧
    (∀ x : FP, opm_memcmp_double [FP.nan] [x] 1 = 0) ∧
    opm_memcmp_double [FP.nan] [FP.val 1] 1 = 0 ∧
    [FP.nan] ≠ [FP.val 1] ∧
    ¬ pairWithinTol FP.nan (FP.val 1) := by
  refine ⟨?_, ?_, ?_, by simp, ?_⟩
  · intro a b h
    cases a <;> cases b <;> simp_all [FP.sub, FP.fabs, FP.isNan, pairOk, FP.gt]
  · intro x
    cases x with
    | val q => norm_num [opm_memcmp_double, pairOk, FP.sub, FP.fabs, FP.gt]
    | nan => simp [opm_memcmp_double]
  · norm_num [opm_memcmp_double, pairOk, FP.sub, FP.fabs, FP.gt]
  · rintro ⟨qa, qb, h, -, -⟩
    exact FP.noConfusion h

/-- C10 witness: the NaN-diff clause applied at a concrete pair, and
the universally quantified comparison at a concrete `x`. -/
theorem nan_pair_reports_equal_witness :
    pairOk FP.nan (FP.val 1) = true ∧ opm_memcmp_double [FP.nan] [FP.val 0] 1 = 0 :=
  ⟨nan_pair_reports_equal.1 FP.nan (FP.val 1) rfl,
   nan_pair_reports_equal.2.1 (FP.val 0)⟩


/-- Helper: the bracket search returns the first interval whenever the
query is at or below the second breakpoint. -/
theorem segIdx_of_le_second (x0 x1 : ℚ) (rest : List ℚ) (x : ℚ) (h : x ≤ x1) :
    segIdx (x0 :: x1 :: rest) x = 0 := by
  cases rest <;> simp [segIdx, h]

/-- Helper: in a strictly increasing list the head is below the last
element. -/
theorem chain'_head_lt_last (a : ℚ) (l : List ℚ) (hc : List.Chain' (· < ·) (a :: l))
    (hne : l ≠ []) : a < (a :: l).getD ((a :: l).length - 1) 0 := by
  induction l generalizing a with
  | nil => simp at hne
  | cons b t ih =>
    have hab : a < b := (List.chain'_cons.mp hc).1
    have hc' : List.Chain' (· < ·) (b :: t) := (List.chain'_cons.mp hc).2
    cases t with
    | nil => simpa using hab
    | cons c u =>
      have h2 := ih b hc' (by simp)
      have hgd : (a :: b :: c :: u).getD ((a :: b :: c :: u).length - 1) 0
          = (b :: c :: u).getD ((b :: c :: u).length - 1) 0 := by
        simp [List.getD_cons_succ]
      rw [hgd]
      exact hab.trans h2

/-- Helper: at or above the last breakpoint the bracket search clamps
to the last interval. -/
theorem segIdx_high (xs : List ℚ) (x : ℚ) (hc : List.Chain' (· < ·) xs)
    (hx : xs.getD (xs.length - 1) 0 ≤ x) : segIdx xs x = xs.length - 2 := by
  induction xs with
  | nil => simp [segIdx]
  | cons x0 tl ih =>
    cases tl with
    | nil => simp [segIdx]
    | cons x1 tl2 =>
      cases tl2 with
      | nil => simp [segIdx]
      | cons x2 rest =>
        have hc' : List.Chain' (· < ·) (x1 :: x2 :: rest) := hc.tail
        have hx' : (x1 :: x2 :: rest).getD ((x1 :: x2 :: rest).length - 1) 0 ≤ x := by
          simpa [List.getD_cons_succ] using hx
        have hx1 : x1 < x :=
          lt_of_lt_of_le (chain'_head_lt_last x1 (x2 :: rest) hc' (by simp)) hx'
        have hrec := ih hc' hx'
        simp only [segIdx, if_neg (not_le.mpr hx1), hrec, List.length_cons]
        omega

/-- Helper: the bracket index stays within the table. -/
theorem segIdx_add_one_lt (xs : List ℚ) (x : ℚ) (h2 : 2 ≤ xs.length) :
    segIdx xs x + 1 < xs.length := by
  induction xs with
  | nil => simp at h2
  | cons x0 tl ih =>
    cases tl with
    | nil => simp at h2
    | cons x1 tl2 =>
      cases tl2 with
      | nil => simp [segIdx]
      | cons x2 rest =>
        by_cases h : x ≤ x1
        · simp [segIdx, h]
        · have hrec := ih (by simp)
          simp only [segIdx, if_neg h, List.length_cons] at hrec ⊢
          omega

/-- Helper: below the first breakpoint, interpolation is the linear
continuation of the first segment. -/
theorem interp_low (xs ys : List ℚ) (x : ℚ) (h2 : 2 ≤ xs.length)
    (hc : List.Chain' (· < ·) xs) (hx : x ≤ xs.getD 0 0) :
    interp xs ys x =
      ys.getD 0 0 + (ys.getD 1 0 - ys.getD 0 0) / (xs.getD 1 0 - xs.getD 0 0) *
        (x - xs.getD 0 0) := by
  obtain ⟨x0, x1, rest, rfl⟩ : ∃ a b t, xs = a :: b :: t := by
    match xs, h2 with
    | a :: b :: t, _ => exact ⟨a, b, t, rfl⟩
  have h01 : x0 < x1 := (List.chain'_cons.mp hc).1
  have h0 : segIdx (x0 :: x1 :: rest) x = 0 :=
    segIdx_of_le_second _ _ _ _ (le_trans (by simpa using hx) h01.le)
  simp [interp, h0]

/-- Helper: below the first breakpoint, the reported slope is the
first segment's slope. -/
theorem interpDeriv_low (xs ys : List ℚ) (x : ℚ) (h2 : 2 ≤ xs.length)
    (hc : List.Chain' (· < ·) xs) (hx : x ≤ xs.getD 0 0) :
    interpDeriv xs ys x = (ys.getD 1 0 - ys.getD 0 0) / (xs.getD 1 0 - xs.getD 0 0) := by
  obtain ⟨x0, x1, rest, rfl⟩ : ∃ a b t, xs = a :: b :: t := by
    match xs, h2 with
    | a :: b :: t, _ => exact ⟨a, b, t, rfl⟩
  have h01 : x0 < x1 := (List.chain'_cons.mp hc).1
  have h0 : segIdx (x0 :: x1 :: rest) x = 0 :=
    segIdx_of_le_second _ _ _ _ (le_trans (by simpa using hx) h01.le)
  simp [interpDeriv, h0]

/-- Helper: above the last breakpoint, interpolation is the linear
continuation of the last segment. -/
theorem interp_high (xs ys : List ℚ) (x : ℚ) (h2 : 2 ≤ xs.length)
    (hc : List.Chain' (· < ·) xs) (hx : xs.getD (xs.length - 1) 0 ≤ x) :
    interp xs ys x =
      ys.getD (xs.length - 2) 0 +
        (ys.getD (xs.length - 1) 0 - ys.getD (xs.length - 2) 0) /
          (xs.getD (xs.length - 1) 0 - xs.getD (xs.length - 2) 0) *
          (x - xs.getD (xs.length - 2) 0) := by
  have h0 := segIdx_high xs x hc hx
  have h1 : xs.length - 2 + 1 = xs.length - 1 := by omega
  rw [interp, h0, h1]

/-- Helper: above the last breakpoint, the reported slope is the last
segment's slope. -/
theorem interpDeriv_high (xs ys : List ℚ) (x : ℚ) (h2 : 2 ≤ xs.length)
    (hc : List.Chain' (· < ·) xs) (hx : xs.getD (xs.length - 1) 0 ≤ x) :
    interpDeriv xs ys x =
      (ys.getD (xs.length - 1) 0 - ys.getD (xs.length - 2) 0) /
        (xs.getD (xs.length - 1) 0 - xs.getD (xs.length - 2) 0) := by
  have h0 := segIdx_high xs x hc hx
  have h1 : xs.length - 2 + 1 = xs.length - 1 := by omega
  rw [interpDeriv, h0, h1]

/-- Helper: past the second breakpoint, interpolation forgets the
first table row. -/
theorem interp_shift (x0 x1 x2 : ℚ) (xrest : List ℚ) (y0 : ℚ) (ytl : List ℚ) (p : ℚ)
    (h : x1 < p) :
    interp (x0 :: x1 :: x2 :: xrest) (y0 :: ytl) p = interp (x1 :: x2 :: xrest) ytl p := by
  simp [interp, segIdx, if_neg (not_le.mpr h), List.getD_cons_succ]

/-- Helper: interpolation at the first breakpoint returns the first
tabulated value. -/
theorem interp_at_head (a b : ℚ) (xtl : List ℚ) (ytl : List ℚ)
    (hc : List.Chain' (· < ·) (a :: xtl)) :
    interp (a :: xtl) (b :: ytl) a = b := by
  have h0 : segIdx (a :: xtl) a = 0 := by
    cases xtl with
    | nil => simp [segIdx]
    | cons c u => exact segIdx_of_le_second _ _ _ _ (le_of_lt (List.chain'_cons.mp hc).1)
  simp [interp, h0]

/-- Helper: piecewise-linear interpolation of a non-decreasing column
against a strictly increasing breakpoint column is monotone in the
query point, globally (clamped extrapolation included). -/
theorem interp_mono (xs : List ℚ) (p2 : ℚ) (ys : List ℚ) (p1 : ℚ)
    (hc : List.Chain' (· < ·) xs) (hy : List.Chain' (· ≤ ·) ys)
    (h2 : 2 ≤ xs.length) (hlen : ys.length = xs.length) (hp : p1 ≤ p2) :
    interp xs ys p1 ≤ interp xs ys p2 := by
  induction xs generalizing ys p1 with
  | nil => simp at h2
  | cons x0 xtl ih =>
    cases xtl with
    | nil => simp at h2
    | cons x1 xtl2 =>
      obtain ⟨y0, ytl, rfl⟩ : ∃ a t, ys = a :: t := by
        cases ys with
        | nil => simp at hlen
        | cons a t => exact ⟨a, t, rfl⟩
      obtain ⟨y1, ytl2, rfl⟩ : ∃ a t, ytl = a :: t := by
        cases ytl with
        | nil => simp at hlen
        | cons a t => exact ⟨a, t, rfl⟩
      have hx01 : x0 < x1 := (List.chain'_cons.mp hc).1
      have hy01 : y0 ≤ y1 := (List.chain'_cons.mp hy).1
      have hslope : 0 ≤ (y1 - y0) / (x1 - x0) := div_nonneg (by linarith) (by linarith)
      have haff : ∀ q q' : ℚ, q ≤ q' →
          y0 + (y1 - y0) / (x1 - x0) * (q - x0) ≤ y0 + (y1 - y0) / (x1 - x0) * (q' - x0) := by
        intro q q' hqq
        have := mul_le_mul_of_nonneg_left (sub_le_sub_right hqq x0) hslope
        linarith
      cases xtl2 with
      | nil =>
        have e : ∀ q : ℚ, interp [x0, x1] (y0 :: y1 :: ytl2) q =
            y0 + (y1 - y0) / (x1 - x0) * (q - x0) := by
          intro q
          simp [interp, segIdx]
        rw [e, e]
        exact haff p1 p2 hp
      | cons x2 xrest =>
        have hctl : List.Chain' (· < ·) (x1 :: x2 :: xrest) := (List.chain'_cons.mp hc).2
        have hytl : List.Chain' (· ≤ ·) (y1 :: ytl2) := (List.chain'_cons.mp hy).2
        have hlen' : (y1 :: ytl2).length = (x1 :: x2 :: xrest).length := by
          simpa using hlen
        have e0 : ∀ q : ℚ, q ≤ x1 → interp (x0 :: x1 :: x2 :: xrest) (y0 :: y1 :: ytl2) q =
            y0 + (y1 - y0) / (x1 - x0) * (q - x0) := by
          intro q hq
          have h0 : segIdx (x0 :: x1 :: x2 :: xrest) q = 0 :=
            segIdx_of_le_second _ _ _ _ hq
          simp [interp, h0]
        by_cases hp2 : p2 ≤ x1
        · rw [e0 p1 (le_trans hp hp2), e0 p2 hp2]
          exact haff p1 p2 hp
        · push_neg at hp2
          by_cases hp1 : p1 ≤ x1
          · have hv1 : interp (x0 :: x1 :: x2 :: xrest) (y0 :: y1 :: ytl2) p1 ≤ y1 := by
              rw [e0 p1 hp1]
              have := haff p1 x1 hp1
              have hne : x1 - x0 ≠ 0 := sub_ne_zero.mpr (ne_of_gt hx01)
              have hcancel : y0 + (y1 - y0) / (x1 - x0) * (x1 - x0) = y1 := by
                rw [div_mul_cancel₀ _ hne]
                ring
              linarith
            have hshift : interp (x0 :: x1 :: x2 :: xrest) (y0 :: y1 :: ytl2) p2 =
                interp (x1 :: x2 :: xrest) (y1 :: ytl2) p2 :=
              interp_shift _ _ _ _ _ _ _ hp2
            have hhead : interp (x1 :: x2 :: xrest) (y1 :: ytl2) x1 = y1 :=
              interp_at_head _ _ _ _ hctl
            have htail := ih (y1 :: ytl2) x1 hctl hytl (by simp) hlen' (le_of_lt hp2)
            rw [hshift]
            calc interp (x0 :: x1 :: x2 :: xrest) (y0 :: y1 :: ytl2) p1 ≤ y1 := hv1
              _ = interp (x1 :: x2 :: xrest) (y1 :: ytl2) x1 := hhead.symm
              _ ≤ interp (x1 :: x2 :: xrest) (y1 :: ytl2) p2 := htail
          · push_neg at hp1
            rw [interp_shift _ _ _ _ _ _ _ hp1, interp_shift _ _ _ _ _ _ _ hp2]
            exact ih (y1 :: ytl2) p1 hctl hytl (by simp) hlen' hp


/-- C2: the region selector returns region 0 for every cell when the
cell-to-region mapping array is absent, and the array element at the
cell index when the mapping is present. -/
theorem getTableIndex_spec :
    (∀ cellIdx : Nat, getTableIndex_ none cellIdx = 0) ∧
    (∀ (a : List Int) (cellIdx : Nat) (h : cellIdx < a.length),
        getTableIndex_ (some a) cellIdx = a.get ⟨cellIdx, h⟩) := by
  refine ⟨fun _ => rfl, fun a c h => ?_⟩
  have e : getTableIndex_ (some a) c = a.getD c 0 := rfl
  rw [e, List.getD_eq_getElem a 0 h, List.get_eq_getElem]

/-- C2 witness: the selector at a concrete absent mapping and at a
concrete in-bounds lookup. -/
theorem getTableIndex_spec_witness :
    getTableIndex_ none 5 = 0 ∧ getTableIndex_ (some [7, 3]) 1 = 3 := by
  refine ⟨getTableIndex_spec.1 5, ?_⟩
  have h := getTableIndex_spec.2 [7, 3] 1 (by norm_num)
  simpa using h

/-- C3: for every pressure, ratio and property item, the ratio-based
evaluation (shared by `mu` and `b` without a phase-condition argument)
takes the saturated branch — saturated-table evaluation directly at p —
exactly when `r >= rsSat(p)`, and otherwise evaluates on the
undersaturated tables bracketing r. -/
theorem ratio_branch_selection (tab : List SatRow) (utabs : List (List USatRow))
    (p r : ℚ) (item : Nat) :
    (rsSat_scalar tab p ≤ r →
      miscible_oil_r tab utabs p r item = evalSat tab p item) ∧
    (r < rsSat_scalar tab p →
      miscible_oil_r tab utabs p r item = evalUndersat tab utabs p r item) := by
  constructor <;> intro h
  · rw [miscible_oil_r, if_pos h]
  · rw [miscible_oil_r, if_neg (not_le.mpr h)]

/-- C3 witness: at the fixture table with rsSat(150) = 65, the item-1
evaluation at r = 70 is saturated and the item-2 evaluation at r = 60
is undersaturated. -/
theorem ratio_branch_selection_witness :
    miscible_oil_r satTabEx usatTabsEx 150 70 1 = evalSat satTabEx 150 1 ∧
    miscible_oil_r satTabEx usatTabsEx 150 60 2 = evalUndersat satTabEx usatTabsEx 150 60 2 := by
  constructor
  · exact (ratio_branch_selection satTabEx usatTabsEx 150 70 1).1
      (by norm_num [rsSat_scalar, interp, segIdx, satTabEx])
  · exact (ratio_branch_selection satTabEx usatTabsEx 150 60 2).2
      (by norm_num [rsSat_scalar, interp, segIdx, satTabEx])

/-- C4: a zero oil surface volume never produces a division — the
derived gas/oil ratio is returned as 0, and the by-surface-volume
evaluation then coincides with the by-ratio evaluation at r = 0, so no
infinity or NaN enters the evaluation. -/
theorem surfvol_zero_oil_guard :
    (∀ g : ℚ, derivedRs g 0 = 0) ∧
    (∀ (tab : List SatRow) (utabs : List (List USatRow)) (p g : ℚ) (item : Nat),
        miscible_oil_z tab utabs p g 0 item = miscible_oil_r tab utabs p 0 item) := by
  refine ⟨fun g => by simp [derivedRs],
    fun tab utabs p g item => by simp [miscible_oil_z, derivedRs]⟩

/-- C5: at or below the first tabulated pressure and at or above the
last, `rsSat` and `rvSat` are the linear continuation of the boundary
segment: the value extrapolates with that segment's constant slope and
the reported pressure derivative equals that slope. -/
theorem satRatio_extrapolation (tab : List SatRow) (p : ℚ)
    (h2 : 2 ≤ tab.length)
    (hc : List.Chain' (· < ·) (tab.map SatRow.press)) :
    (p ≤ (tab.map SatRow.press).getD 0 0 →
      (rsSat_scalar tab p =
          (tab.map SatRow.rs).getD 0 0 +
            ((tab.map SatRow.rs).getD 1 0 - (tab.map SatRow.rs).getD 0 0) /
              ((tab.map SatRow.press).getD 1 0 - (tab.map SatRow.press).getD 0 0) *
              (p - (tab.map SatRow.press).getD 0 0) ∧
        drsSatdp_scalar tab p =
          ((tab.map SatRow.rs).getD 1 0 - (tab.map SatRow.rs).getD 0 0) /
            ((tab.map SatRow.press).getD 1 0 - (tab.map SatRow.press).getD 0 0) ∧
        rvSat_scalar tab p =
          (tab.map SatRow.rs).getD 0 0 +
            ((tab.map SatRow.rs).getD 1 0 - (tab.map SatRow.rs).getD 0 0) /
              ((tab.map SatRow.press).getD 1 0 - (tab.map SatRow.press).getD 0 0) *
              (p - (tab.map SatRow.press).getD 0 0) ∧
        drvSatdp_scalar tab p =
          ((tab.map SatRow.rs).getD 1 0 - (tab.map SatRow.rs).getD 0 0) /
            ((tab.map SatRow.press).getD 1 0 - (tab.map SatRow.press).getD 0 0))) ∧
    ((tab.map SatRow.press).getD (tab.length - 1) 0 ≤ p →
      (rsSat_scalar tab p =
          (tab.map SatRow.rs).getD (tab.length - 2) 0 +
            ((tab.map SatRow.rs).getD (tab.length - 1) 0 -
                (tab.map SatRow.rs).getD (tab.length - 2) 0) /
              ((tab.map SatRow.press).getD (tab.length - 1) 0 -
                (tab.map SatRow.press).getD (tab.length - 2) 0) *
              (p - (tab.map SatRow.press).getD (tab.length - 2) 0) ∧
        drsSatdp_scalar tab p =
          ((tab.map SatRow.rs).getD (tab.length - 1) 0 -
              (tab.map SatRow.rs).getD (tab.length - 2) 0) /
            ((tab.map SatRow.press).getD (tab.length - 1) 0 -
              (tab.map SatRow.press).getD (tab.length - 2) 0) ∧
        rvSat_scalar tab p =
          (tab.map SatRow.rs).getD (tab.length - 2) 0 +
            ((tab.map SatRow.rs).getD (tab.length - 1) 0 -
                (tab.map SatRow.rs).getD (tab.length - 2) 0) /
              ((tab.map SatRow.press).getD (tab.length - 1) 0 -
                (tab.map SatRow.press).getD (tab.length - 2) 0) *
              (p - (tab.map SatRow.press).getD (tab.length - 2) 0) ∧
        drvSatdp_scalar tab p =
          ((tab.map SatRow.rs).getD (tab.length - 1) 0 -
              (tab.map SatRow.rs).getD (tab.length - 2) 0) /
            ((tab.map SatRow.press).getD (tab.length - 1) 0 -
              (tab.map SatRow.press).getD (tab.length - 2) 0))) := by
  have hlen : (tab.map SatRow.press).length = tab.length := List.length_map _ _
  have h2' : 2 ≤ (tab.map SatRow.press).length := by omega
  constructor
  · intro hp
    exact ⟨interp_low _ _ p h2' hc hp, interpDeriv_low _ _ p h2' hc hp,
      interp_low _ _ p h2' hc hp, interpDeriv_low _ _ p h2' hc hp⟩
  · intro hp
    have hp' : (tab.map SatRow.press).getD ((tab.map SatRow.press).length - 1) 0 ≤ p := by
      rwa [hlen]
    have e1 := interp_high (tab.map SatRow.press) (tab.map SatRow.rs) p h2' hc hp'
    have e2 := interpDeriv_high (tab.map SatRow.press) (tab.map SatRow.rs) p h2' hc hp'
    rw [hlen] at e1 e2
    exact ⟨e1, e2, e1, e2⟩

/-- C5 witness: boundary extrapolation of the fixture table, below the
first tabulated pressure (p = 50) and above the last (p = 250). -/
theorem satRatio_extrapolation_witness :
    rsSat_scalar satTabEx 50 =
        (satTabEx.map SatRow.rs).getD 0 0 +
          ((satTabEx.map SatRow.rs).getD 1 0 - (satTabEx.map SatRow.rs).getD 0 0) /
            ((satTabEx.map SatRow.press).getD 1 0 - (satTabEx.map SatRow.press).getD 0 0) *
            (50 - (satTabEx.map SatRow.press).getD 0 0) ∧
    drsSatdp_scalar satTabEx 50 =
        ((satTabEx.map SatRow.rs).getD 1 0 - (satTabEx.map SatRow.rs).getD 0 0) /
          ((satTabEx.map SatRow.press).getD 1 0 - (satTabEx.map SatRow.press).getD 0 0) ∧
    rsSat_scalar satTabEx 250 =
        (satTabEx.map SatRow.rs).getD (satTabEx.length - 2) 0 +
          ((satTabEx.map SatRow.rs).getD (satTabEx.length - 1) 0 -
              (satTabEx.map SatRow.rs).getD (satTabEx.length - 2) 0) /
            ((satTabEx.map SatRow.press).getD (satTabEx.length - 1) 0 -
              (satTabEx.map SatRow.press).getD (satTabEx.length - 2) 0) *
            (250 - (satTabEx.map SatRow.press).getD (satTabEx.length - 2) 0) ∧
    drvSatdp_scalar satTabEx 250 =
        ((satTabEx.map SatRow.rs).getD (satTabEx.length - 1) 0 -
            (satTabEx.map SatRow.rs).getD (satTabEx.length - 2) 0) /
          ((satTabEx.map SatRow.press).getD (satTabEx.length - 1) 0 -
            (satTabEx.map SatRow.press).getD (satTabEx.length - 2) 0) := by
  have hc : List.Chain' (· < ·) (satTabEx.map SatRow.press) := by
    norm_num [satTabEx, List.chain'_cons]
  have h2 : 2 ≤ satTabEx.length := by norm_num [satTabEx]
  have hlow := (satRatio_extrapolation satTabEx 50 h2 hc).1 (by norm_num [satTabEx])
  have hhigh := (satRatio_extrapolation satTabEx 250 h2 hc).2 (by norm_num [satTabEx])
  exact ⟨hlow.1, hlow.2.1, hhigh.1, hhigh.2.2.2⟩

/-- C6 (amended): for every pressure, temperature and ratio
`r >= rsSat(p)`, `b(p, T, r)` equals the saturated-table evaluation at
p (including at r exactly equal to rsSat(p), where the saturated branch
is used); the saturated value does not in general agree with the value
the undersaturated branch converges to from below — see the
counterexample. -/
theorem b_saturated_region (tab : List SatRow) (utabs : List (List USatRow))
    (p r : ℚ) (h : rsSat_scalar tab p ≤ r) :
    miscible_oil_r tab utabs p r 1 = evalSat tab p 1 := by
  rw [miscible_oil_r, if_pos h]

/-- C6 witness: the fixture evaluation exactly on the saturation curve,
r = rsSat(150) = 65. -/
theorem b_saturated_region_witness :
    miscible_oil_r satTabEx usatTabsEx 150 65 1 = evalSat satTabEx 150 1 :=
  b_saturated_region satTabEx usatTabsEx 150 65
    (by norm_num [rsSat_scalar, interp, segIdx, satTabEx])

/-- C6 counterexample: branch boundary continuity fails at a
non-tabulated pressure.  At the fixture tables (undersaturated
sub-tables anchored at the saturated rows, all invariants of spec
section 3 satisfied), rsSat(150) = 65; `b` at (150, 65) takes the
saturated branch and returns 0.925, while the undersaturated blend —
which at p = 150 is one affine function of r on the single ratio
bracket [50, 80], so its value at r = 65 is precisely its limit as
r -> 65 from below — gives 0.94375. -/
theorem b_boundary_discontinuity_cex :
    rsSat_scalar satTabEx 150 = 65 ∧
    miscible_oil_r satTabEx usatTabsEx 150 65 1 = 37/40 ∧
    evalUndersat satTabEx usatTabsEx 150 65 1 = 151/160 ∧
    miscible_oil_r satTabEx usatTabsEx 150 65 1 ≠ evalUndersat satTabEx usatTabsEx 150 65 1 := by
  refine ⟨?_, ?_, ?_, ?_⟩
  · norm_num [rsSat_scalar, interp, segIdx, satTabEx]
  · norm_num [miscible_oil_r, rsSat_scalar, evalSat, interp, segIdx, satTabEx, satCol]
  · norm_num [evalUndersat, interp, segIdx, satTabEx, usatTabsEx, usatCol]
  · norm_num [miscible_oil_r, rsSat_scalar, evalSat, evalUndersat, interp, segIdx,
      satTabEx, usatTabsEx, satCol, usatCol]

/-- C7: if the saturated table's 1/B column is increasing in pressure,
then at a fixed saturated ratio r the value `b(p, T, r)` is
non-decreasing in p — the interpolation preserves the table's
monotonicity (globally, hence in particular within each bracket). -/
theorem b_monotone_in_p (tab : List SatRow) (utabs : List (List USatRow))
    (p1 p2 r : ℚ)
    (hc : List.Chain' (· < ·) (tab.map SatRow.press))
    (hmono : List.Chain' (· < ·) (tab.map (satCol 1)))
    (h2 : 2 ≤ tab.length)
    (hp : p1 ≤ p2)
    (hs1 : rsSat_scalar tab p1 ≤ r) (hs2 : rsSat_scalar tab p2 ≤ r) :
    miscible_oil_r tab utabs p1 r 1 ≤ miscible_oil_r tab utabs p2 r 1 := by
  rw [miscible_oil_r, if_pos hs1, miscible_oil_r, if_pos hs2, evalSat, evalSat]
  refine interp_mono _ p2 _ p1 hc (List.Chain'.imp (fun a b h => le_of_lt h) hmono) ?_ ?_ hp
  · simpa using h2
  · simp

/-- C7 witness: monotonicity on the fixture table between p = 120 and
p = 140 at the saturated ratio r = 100. -/
theorem b_monotone_in_p_witness :
    miscible_oil_r satTabEx usatTabsEx 120 100 1 ≤
      miscible_oil_r satTabEx usatTabsEx 140 100 1 := by
  refine b_monotone_in_p satTabEx usatTabsEx 120 140 100 ?_ ?_ ?_ ?_ ?_ ?_
  · norm_num [satTabEx, List.chain'_cons]
  · norm_num [satTabEx, satCol, List.chain'_cons]
  · norm_num [satTabEx]
  · norm_num
  · norm_num [rsSat_scalar, interp, segIdx, satTabEx]
  · norm_num [rsSat_scalar, interp, segIdx, satTabEx]

/-- C8: with no viscosity-temperature table attached, the temperature
input has no effect — both vectorized viscosity operations produce
identical outputs for any two temperature arrays and otherwise
identical inputs. -/
theorem mu_ignores_temperature (self : PvtLiveOil) (h : self.oilvisctTables_ = none)
    (n : Nat) (idx : Option (List Int)) (p r T1 T2 gasVol oilVol : List ℚ) :
    muVec_r self n idx p T1 r = muVec_r self n idx p T2 r ∧
    muVec_z self n idx p T1 gasVol oilVol = muVec_z self n idx p T2 gasVol oilVol := by
  constructor <;> simp [muVec_r, muVec_z, muCell, h]

/-- C8 witness: the concrete no-temperature-table evaluator at two
different temperature arrays. -/
theorem mu_ignores_temperature_witness :
    muVec_r pvtEx 1 none [150] [300] [70] = muVec_r pvtEx 1 none [150] [400] [70] ∧
    muVec_z pvtEx 1 none [150] [300] [30] [2] = muVec_z pvtEx 1 none [150] [400] [30] [2] :=
  mu_ignores_temperature pvtEx rfl 1 none [150] [70] [300] [400] [30] [2]

/-- C9: `setOilvisctTables` assigns only the viscosity-temperature
table member and the reference-pressure keyword — the saturated and
undersaturated oil tables are unchanged — and a second call completely
overwrites the first (last attachment wins). -/
theorem setOilvisctTables_frame (s : PvtLiveOil) (t1 t2 : List OilvisctTable)
    (k1 k2 : Option ViscrefRecord) :
    ((setOilvisctTables s t1 k1).saturated_oil_table_ = s.saturated_oil_table_ ∧
     (setOilvisctTables s t1 k1).undersat_oil_tables_ = s.undersat_oil_tables_ ∧
     (setOilvisctTables s t1 k1).oilvisctTables_ = some t1 ∧
     (setOilvisctTables s t1 k1).viscrefKeyword_ = k1) ∧
    setOilvisctTables (setOilvisctTables s t1 k1) t2 k2 = setOilvisctTables s t2 k2 :=
  ⟨⟨rfl, rfl, rfl, rfl⟩, rfl⟩

end Opm
